import Mathlib

/-!
Verification of the bird-counting core (`src/census`): a shallow embedding of
`utils/triangles.py`, `utils/graphs.py` and `algorithms/algorithm_1.py`.

Modelling conventions.

* Machine floats are idealised: coordinates, edge weights and radii live in a
  linear ordered field `α` (instantiated at `ℚ` for executable runs and at `ℝ`
  where `math.sqrt` is involved).  Timestamps and the window width are
  integers: `pandas` datetimes and timedeltas are 64-bit integer tick counts,
  so times form a discrete ordered additive group, embedded as `ℤ`.
* A Python run that raises an exception returns `none`; a normal return is
  `some`.  In particular, `get_smallest_enclosing_circles` raises `TypeError`
  on the first clique of size three it reaches, because the source invokes
  `get_circumcircle((pos[u], pos[v], pos[w]))` with a single tuple argument
  where three positional points are required, and (in its unreachable
  continuation) `get_smallest_enclosing_circle(graph=...)` with a keyword that
  is not a parameter of that function.  The embedding returns `none` as soon
  as a triangle is reached, before any geometry is evaluated, exactly as the
  interpreter would.
* `networkx` library calls are modelled by their documented semantics:
  `enumerate_all_cliques` restricted to size three is the list of all
  3-cliques, `G.subgraph(ns)` keeps exactly the nodes of `ns` that are present
  in the graph (silently dropping the others), `str(G)` shows the node and
  edge counts, `find_cliques`/`max(..., key=len)` yields a maximum clique
  (tie order is irrelevant to every statement below).
* A `dict` is an association list; `pandas` dataframes of classification
  results are lists of records.
-/

/-- Fold over a list in the `Option` monad: the Python convention that a loop
body which raises aborts the whole call. -/
def foldOpt {σ β : Type} (f : σ → β → Option σ) : σ → List β → Option σ
  | s, [] => some s
  | s, x :: xs =>
    match f s x with
    | none => none
    | some s' => foldOpt f s' xs

/-- Helper for `dropDuplicates`: drop the elements already `seen`. -/
def dropDuplicatesAux {β : Type} [DecidableEq β] (seen : List β) : List β → List β
  | [] => []
  | x :: xs =>
    if seen.contains x then dropDuplicatesAux seen xs
    else x :: dropDuplicatesAux (x :: seen) xs

/-- `pandas.DataFrame.drop_duplicates`: keep the first occurrence of each
element. -/
def dropDuplicates {β : Type} [DecidableEq β] (l : List β) : List β :=
  dropDuplicatesAux [] l

/-- Lookup in an association list (a Python `dict` keyed by species). -/
def alookup (s : ℕ) : List (ℕ × ℕ) → Option ℕ
  | [] => none
  | kv :: rest => if kv.1 = s then some kv.2 else alookup s rest

/-- `if count > species_count[s]: species_count[s] = count`
(algorithm_1.py lines 84-85): overwrite the entry for `s` only when the new
count is larger.  The key is always present in the executions of
`count_birds` (it is initialised from the same dataframe), so the
missing-key `KeyError` cannot occur and is not modelled. -/
def updateIfGreater (cs : List (ℕ × ℕ)) (s : ℕ) (c : ℕ) : List (ℕ × ℕ) :=
  cs.map (fun kv => if kv.1 = s ∧ kv.2 < c then (kv.1, c) else kv)

/-- One classification result: a row of the input dataframe with the columns
used by the algorithm (`node`, `species_name_en` as an identifier,
`begin_time`, `end_time` in seconds). -/
structure Det where
  node : ℕ
  species : ℕ
  beginTime : ℤ
  endTime : ℤ
deriving DecidableEq, Repr

/-- Comparison used by `df.sort_values("begin_time")`. -/
def detLe (a b : Det) : Prop := a.beginTime ≤ b.beginTime

instance : DecidableRel detLe :=
  fun a b => inferInstanceAs (Decidable (a.beginTime ≤ b.beginTime))

/-- `df.sort_values("begin_time")`. -/
def sortByBegin (df : List Det) : List Det := List.insertionSort detLe df

/-- An `nx.Graph` as used by the repository: nodes carry a 2-d `pos`
attribute, edges carry a `weight` attribute.  An undirected edge is stored
once, in the orientation in which it was added. -/
structure Graph (α : Type) where
  nodes : List ℕ
  pos : List (ℕ × α × α)
  edges : List (ℕ × ℕ × α)
deriving DecidableEq, Repr

/-- The `pos` attribute of a node (every node of the graphs considered has
one; absent nodes default to the origin). -/
def posOf {α : Type} [LinearOrderedField α] (g : Graph α) (u : ℕ) : α × α :=
  match g.pos.find? (fun p => p.1 == u) with
  | some p => (p.2.1, p.2.2)
  | none => (0, 0)

/-- Undirected adjacency. -/
def adj {α : Type} (g : Graph α) (u v : ℕ) : Bool :=
  g.edges.any (fun e => (e.1 == u && e.2.1 == v) || (e.1 == v && e.2.1 == u))

/-- Stored weight of the undirected edge between `u` and `v`, if present. -/
def edgeWeight {α : Type} (g : Graph α) (u v : ℕ) : Option α :=
  (g.edges.find? (fun e => (e.1 == u && e.2.1 == v) || (e.1 == v && e.2.1 == u))).map
    (fun e => e.2.2)

/-- `str(G)` is "Graph with n nodes and m edges"; comparing the strings of two
graphs compares exactly these two counts. -/
def gshape {α : Type} (g : Graph α) : ℕ × ℕ := (g.nodes.length, g.edges.length)

/-- `G.subgraph(ns)` (as copied by `nx.Graph(...)`): keep the nodes of `ns`
that are present in the graph, the edges between them, and their attributes.
Nodes of `ns` that are not in the graph are silently dropped. -/
def subgraphOf {α : Type} (g : Graph α) (ns : List ℕ) : Graph α :=
  { nodes := g.nodes.filter (fun x => ns.contains x)
    pos := g.pos.filter (fun p => ns.contains p.1)
    edges := g.edges.filter (fun e => ns.contains e.1 && ns.contains e.2.1) }

/-- `G.remove_nodes_from(c)`: drop the nodes of `c`, their attributes and all
incident edges. -/
def removeNodes {α : Type} (g : Graph α) (c : List ℕ) : Graph α :=
  { nodes := g.nodes.filter (fun x => ¬ c.contains x)
    pos := g.pos.filter (fun p => ¬ c.contains p.1)
    edges := g.edges.filter (fun e => ¬ c.contains e.1 && ¬ c.contains e.2.1) }

/-- `itertools.combinations(l, 2)`: ordered pairs of positions. -/
def combinations2 : List ℕ → List (ℕ × ℕ)
  | [] => []
  | x :: xs => xs.map (fun y => (x, y)) ++ combinations2 xs

/-- Ordered triples of positions, used to enumerate candidate 3-cliques. -/
def combinations3 : List ℕ → List (ℕ × ℕ × ℕ)
  | [] => []
  | x :: xs => (combinations2 xs).map (fun p => (x, p.1, p.2)) ++ combinations3 xs

/-- The cliques of size three yielded by `nx.enumerate_all_cliques`, i.e. all
triples of pairwise adjacent nodes. -/
def trianglesList {α : Type} (g : Graph α) : List (ℕ × ℕ × ℕ) :=
  (combinations3 g.nodes).filter
    (fun t => adj g t.1 t.2.1 && adj g t.1 t.2.2 && adj g t.2.1 t.2.2)

/-- A list of nodes that is a clique: pairwise adjacent. -/
def isClique {α : Type} (g : Graph α) : List ℕ → Bool
  | [] => true
  | x :: xs => xs.all (fun y => adj g x y) && isClique g xs

/-- Keep the longer of two candidate cliques (`max(..., key=len)` keeps the
first on ties). -/
def pickLonger (b c : List ℕ) : List ℕ := if b.length < c.length then c else b

/-- `max(nx.find_cliques(G), key=len)`: a maximum clique of the graph.  The
enumeration order of `find_cliques` (and hence the clique chosen among equal
sizes) is library-defined; no statement below depends on the tie order. -/
def maxClique {α : Type} (g : Graph α) : List ℕ :=
  ((g.nodes.sublists).filter (fun c => isClique g c)).foldl pickLonger []

/-- The greedy clique-removal loop of `count_birds` (algorithm_1.py lines
77-81), with explicit fuel: each round removes a nonempty clique, so
`g.nodes.length` rounds always suffice and the fuel is never exhausted. -/
def cliqueCoverAux {α : Type} : ℕ → Graph α → ℕ
  | 0, _ => 0
  | fuel + 1, g =>
    if g.nodes.isEmpty then 0
    else cliqueCoverAux fuel (removeNodes g (maxClique g)) + 1

/-- Number of rounds of greedy maximum-clique removal until the graph is
empty: the per-window per-species bird count. -/
def cliqueCover {α : Type} (g : Graph α) : ℕ := cliqueCoverAux g.nodes.length g

/-! ### Geometry kernel (`utils/triangles.py`)

`get_circumcircle` computes with `math.sqrt` and real division, so it is
embedded over `ℝ`.  The aggregate `get_smallest_enclosing_circles` never
reaches any geometry (see below), so it stays polymorphic. -/

/-- The inner `sign` helper of `point_in_triangle` (triangles.py line 20). -/
def sign {α : Type} [LinearOrderedField α] (p1 p2 p3 : α × α) : α :=
  (p1.1 - p3.1) * (p2.2 - p3.2) - (p2.1 - p3.1) * (p1.2 - p3.2)

/-- `point_in_triangle` (triangles.py lines 6-30): the non-strict
sign-of-cross-product test; boundary points count as inside. -/
def point_in_triangle {α : Type} [LinearOrderedField α] (pt p1 p2 p3 : α × α) : Bool :=
  let d1 := sign pt p1 p2
  let d2 := sign pt p2 p3
  let d3 := sign pt p3 p1
  let neg := d1 < 0 ∨ d2 < 0 ∨ d3 < 0
  let pos := d1 > 0 ∨ d2 > 0 ∨ d3 > 0
  ¬ (neg ∧ pos)

/-- The denominator `d` of `get_circumcircle` (triangles.py line 47). -/
def circumDenom (p1 p2 p3 : ℝ × ℝ) : ℝ :=
  2 * (p1.1 * (p2.2 - p3.2) + p2.1 * (p3.2 - p1.2) + p3.1 * (p1.2 - p2.2))

/-- `get_circumcircle` (triangles.py lines 33-53).  The source divides by `d`
with no guard; when `d = 0` (collinear points) Python raises
`ZeroDivisionError` at the computation of `ux`, modelled as `none`.
Otherwise the circle `((ux, uy), r)` is returned. -/
noncomputable def get_circumcircle (p1 p2 p3 : ℝ × ℝ) : Option ((ℝ × ℝ) × ℝ) :=
  let d := circumDenom p1 p2 p3
  if d = 0 then none
  else
    let ux := ((p1.1 * p1.1 + p1.2 * p1.2) * (p2.2 - p3.2) +
        (p2.1 * p2.1 + p2.2 * p2.2) * (p3.2 - p1.2) +
        (p3.1 * p3.1 + p3.2 * p3.2) * (p1.2 - p2.2)) / d
    let uy := ((p1.1 * p1.1 + p1.2 * p1.2) * (p3.1 - p2.1) +
        (p2.1 * p2.1 + p2.2 * p2.2) * (p1.1 - p3.1) +
        (p3.1 * p3.1 + p3.2 * p3.2) * (p2.1 - p1.1)) / d
    some ((ux, uy), Real.sqrt ((p1.1 - ux) ^ 2 + (p1.2 - uy) ^ 2))

/-- `max(weights, key=lambda k: weights[k])` over the edge-weight dict of a
clique (triangles.py line 71): the first key attaining the maximal weight;
`ValueError` on an empty dict is modelled as `none`. -/
def maxWeightKey {α : Type} [LinearOrderedField α]
    (l : List ((ℕ × ℕ) × α)) : Option (ℕ × ℕ) :=
  (l.foldl (fun acc e =>
    match acc with
    | none => some e
    | some b => if b.2 < e.2 then some e else some b) none).map (fun e => e.1)

/-- `get_smallest_enclosing_circle` (triangles.py lines 56-75): the circle on
the longest edge (by stored weight) of a 3-clique — midpoint of that edge,
radius half its weight.  The `clique` parameter is unused in the source. -/
def get_smallest_enclosing_circle {α : Type} [LinearOrderedField α]
    (clique : ℕ × ℕ × ℕ) (pos : List (ℕ × α × α)) (weights : List ((ℕ × ℕ) × α)) :
    Option ((α × α) × α) :=
  match maxWeightKey weights with
  | none => none
  | some (u, v) =>
    let pu := posOf { nodes := [], pos := pos, edges := [] } u
    let pv := posOf { nodes := [], pos := pos, edges := [] } v
    match weights.find? (fun e => e.1.1 == u && e.1.2 == v) with
    | none => none
    | some e =>
      some (((pu.1 + pv.1) / 2, (pu.2 + pv.2) / 2), e.2 / 2)

/-- `get_smallest_enclosing_circles` (triangles.py lines 100-137).  The loop
skips every clique whose size is not three; on the FIRST clique of size
three it evaluates `get_circumcircle((pos[u], pos[v], pos[w]))` — a call
with a single tuple argument to a function of three required positional
parameters — which raises `TypeError` before any arithmetic.  (Its
continuation, unreachable for that reason, also calls
`get_smallest_enclosing_circle(graph=graph, ...)` with a keyword that the
function does not accept.)  Hence the call returns the empty dict when the
graph has no 3-clique and raises otherwise. -/
def get_smallest_enclosing_circles {α : Type} [LinearOrderedField α]
    (g : Graph α) : Option (List ((ℕ × ℕ × ℕ) × ((α × α) × α))) :=
  match trianglesList g with
  | [] => some []
  | _ :: _ => none

/-! ### Graph utilities (`utils/graphs.py`) -/

/-- `G.add_edge(u, v, weight=w)`: update the weight if the undirected edge is
present, otherwise append it.  (`add_edge` would also insert missing
endpoints as nodes; in `build_udg` both endpoints come from `graph.nodes`,
so that case cannot arise and is not modelled.) -/
def addEdge {α : Type} (g : Graph α) (u v : ℕ) (w : α) : Graph α :=
  if g.edges.any (fun e => (e.1 == u && e.2.1 == v) || (e.1 == v && e.2.1 == u)) then
    { g with
      edges := g.edges.map (fun e =>
        if (e.1 == u && e.2.1 == v) || (e.1 == v && e.2.1 == u) then
          (e.1, e.2.1, w)
        else e) }
  else { g with edges := g.edges ++ [(u, v, w)] }

/-- The Euclidean distance computed at graphs.py line 65. -/
noncomputable def euclDist (p q : ℝ × ℝ) : ℝ :=
  Real.sqrt ((p.1 - q.1) ^ 2 + (p.2 - q.2) ^ 2)

/-- One iteration of the `build_udg` loop (graphs.py lines 63-67). -/
noncomputable def buildStep (h : ℝ) (acc : Graph ℝ) (p : ℕ × ℕ) : Graph ℝ :=
  let d := euclDist (posOf acc p.1) (posOf acc p.2)
  if d ≤ h * 2 then addEdge acc p.1 p.2 d else acc

/-- `build_udg` (graphs.py lines 51-69): for every unordered pair of nodes,
add an edge weighted by the Euclidean distance whenever that distance is at
most `hearing_radius * 2`. -/
noncomputable def build_udg (g : Graph ℝ) (hearing_radius : ℝ) : Graph ℝ :=
  (combinations2 g.nodes).foldl (buildStep hearing_radius) g

/-- The body of the edge-removal loop of `alter_udg` (graphs.py lines
88-96): if the recorded smallest enclosing circle of the clique is larger
than the hearing radius, look up the three edge weights (skipping the clique
if an edge was already removed) and remove the heaviest edge. -/
def alterStep {α : Type} [LinearOrderedField α] (hearing_radius : α)
    (g : Graph α) (tc : (ℕ × ℕ × ℕ) × ((α × α) × α)) : Graph α :=
  if hearing_radius < tc.2.2 then
    let u := tc.1.1
    let v := tc.1.2.1
    let w := tc.1.2.2
    match edgeWeight g u v, edgeWeight g u w, edgeWeight g v w with
    | some wuv, some wuw, some wvw =>
      match maxWeightKey [((u, v), wuv), ((u, w), wuw), ((v, w), wvw)] with
      | some (x, y) =>
        { g with
          edges := g.edges.filter (fun e =>
            ¬ ((e.1 == x && e.2.1 == y) || (e.1 == y && e.2.1 == x))) }
      | none => g
    | _, _, _ => g
  else g

/-- `alter_udg` (graphs.py lines 72-98): compute the smallest enclosing
circles of all 3-cliques, then remove the longest edge of every clique whose
circle exceeds the hearing radius.  Because
`get_smallest_enclosing_circles` raises on any graph with a 3-clique and
returns the empty dict otherwise, the loop body never runs in a completing
call. -/
def alter_udg {α : Type} [LinearOrderedField α] (g : Graph α)
    (hearing_radius : α) : Option (Graph α) :=
  match get_smallest_enclosing_circles g with
  | none => none
  | some circles => some (circles.foldl (alterStep hearing_radius) g)

/-! ### The window counter (`algorithms/algorithm_1.py`) -/

/-- The window mask of algorithm_1.py lines 46-47: rows whose `begin_time`
lies in `[wb, we)` or whose `end_time` lies in `(wb, we]`. -/
def windowSel (dfs : List Det) (wb we : ℤ) : List Det :=
  dfs.filter (fun d =>
    (decide (wb ≤ d.beginTime) && decide (d.beginTime < we)) ||
    (decide (wb < d.endTime) && decide (d.endTime ≤ we)))

/-- `df_wdw[["node","species_name_en"]].drop_duplicates()` (line 57). -/
def windowPairs (sel : List Det) : List (ℕ × ℕ) :=
  dropDuplicates (sel.map (fun d => (d.node, d.species)))

/-- `df_wdw["species_name_en"].drop_duplicates()` (lines 60 and 64). -/
def windowSpecies (pairs : List (ℕ × ℕ)) : List ℕ :=
  dropDuplicates (pairs.map (fun p => p.2))

/-- `list(df_species["node"].drop_duplicates())` (line 66). -/
def speciesNodes (pairs : List (ℕ × ℕ)) (s : ℕ) : List ℕ :=
  dropDuplicates ((pairs.filter (fun p => p.2 = s)).map (fun p => p.1))

/-- `sorted(df["species_name_en"].drop_duplicates())` (line 39). -/
def speciesNames (dfs : List Det) : List ℕ :=
  List.insertionSort (fun a b => a ≤ b) (dropDuplicates (dfs.map (fun d => d.species)))

/-- `df["begin_time"].min()` of a nonempty dataframe (the `[]` case never
feeds the loop: with no rows the loop of `count_birds` does not run). -/
def minBegin : List Det → ℤ
  | [] => 0
  | d :: ds => ds.foldl (fun m x => min m x.beginTime) d.beginTime

/-- `df["end_time"].max()` of a nonempty dataframe. -/
def maxEnd : List Det → ℤ
  | [] => 0
  | d :: ds => ds.foldl (fun m x => max m x.endTime) d.endTime

/-- Number of iterations of the `while wdw_begin < last_stamp` loop (lines
43-50): the window start of iteration `i` is `wb + i * td`, so the loop runs
`⌈(last - wb) / td⌉` times, the integer ceiling division computed with
`Int.fdiv` (see `numWindows_iff` below for the loop-exact characterisation).
The source loop does not terminate when the window width is not positive;
the embedding is used with `0 < td` (the relevant statements carry that
hypothesis). -/
def numWindows (wb last td : ℤ) : ℕ :=
  if 0 < td then (-((-(last - wb)).fdiv td)).toNat else 0

/-- The per-species body of a window (algorithm_1.py lines 64-85): when the
species was heard by more than one node, build a fresh copy of the induced
subgraph, run `alter_udg` over it when altering was found necessary, count by
greedy maximum-clique removal, and keep the count if it beats the stored
estimate. -/
def speciesStep {α : Type} [LinearOrderedField α] (g : Graph α)
    (altering : Bool) (hr : α) (pairs : List (ℕ × ℕ))
    (cs : List (ℕ × ℕ)) (s : ℕ) : Option (List (ℕ × ℕ)) :=
  let ns := speciesNodes pairs s
  if 1 < ns.length then
    match (if altering then alter_udg (subgraphOf g ns) hr else some (subgraphOf g ns)) with
    | none => none
    | some sub => some (updateIfGreater cs s (cliqueCover sub))
  else some cs

/-- One iteration of the sliding window (algorithm_1.py lines 43-85): select
the rows overlapping `[wb, wb + td)` by the mask, skip the window when it is
empty or when no species has two reporting nodes, otherwise run the counting
for every species of the window. -/
def stepWindow {α : Type} [LinearOrderedField α] (dfs : List Det) (g : Graph α)
    (altering : Bool) (hr : α) (td : ℤ)
    (cs : List (ℕ × ℕ)) (wb : ℤ) : Option (List (ℕ × ℕ)) :=
  let sel := windowSel dfs wb (wb + td)
  if sel.length = 0 then some cs
  else
    let pairs := windowPairs sel
    if pairs.length = 1 ∨ (windowSpecies pairs).length = pairs.length then some cs
    else foldOpt (speciesStep g altering hr pairs) cs (windowSpecies pairs)

/-- The window iteration on the branch actually taken by every completing run
of `count_birds` (`altering_necessary = False`), where no exception can be
raised: the pure counterpart of `stepWindow`. -/
def stepPure {α : Type} [LinearOrderedField α] (dfs : List Det) (g : Graph α)
    (td : ℤ) (cs : List (ℕ × ℕ)) (wb : ℤ) : List (ℕ × ℕ) :=
  let sel := windowSel dfs wb (wb + td)
  if sel.length = 0 then cs
  else
    let pairs := windowPairs sel
    if pairs.length = 1 ∨ (windowSpecies pairs).length = pairs.length then cs
    else
      (windowSpecies pairs).foldl (fun cs2 s =>
        if 1 < (speciesNodes pairs s).length then
          updateIfGreater cs2 s (cliqueCover (subgraphOf g (speciesNodes pairs s)))
        else cs2) cs

/-- The count that the window starting at `wb` contributes for species `s`,
when the window actually computes one (window nonempty, not skipped, and `s`
reported by more than one node); `none` when the window leaves the stored
estimate of `s` untouched. -/
def windowSpeciesCount {α : Type} [LinearOrderedField α] (dfs : List Det)
    (g : Graph α) (td : ℤ) (wb : ℤ) (s : ℕ) : Option ℕ :=
  let sel := windowSel dfs wb (wb + td)
  if sel.length = 0 then none
  else
    let pairs := windowPairs sel
    if pairs.length = 1 ∨ (windowSpecies pairs).length = pairs.length then none
    else if s ∈ windowSpecies pairs ∧ 1 < (speciesNodes pairs s).length then
      some (cliqueCover (subgraphOf g (speciesNodes pairs s)))
    else none

/-- `count_birds` (algorithm_1.py lines 9-87).  The dataframe is sorted by
`begin_time`; `alter_udg` is run on a copy of the graph at ITS OWN default
radius `100.0` — `alter_udg(graph.copy())` passes no radius — to decide
whether altering is necessary (comparing the `str` representations, i.e. the
node and edge counts); the estimate of every species of the input starts at
`1`; then the fixed-width window slides from the earliest `begin_time` until
the latest `end_time`, updating each species' estimate to any larger
per-window count.  A raise anywhere (in particular the `TypeError` of
`get_smallest_enclosing_circles` reached through `alter_udg` whenever the
graph contains a 3-clique) yields `none`. -/
def count_birds {α : Type} [LinearOrderedField α] (df : List Det) (g : Graph α)
    (time_delta_detection : ℤ) (hearing_radius : α) : Option (List (ℕ × ℕ)) :=
  let dfs := sortByBegin df
  match alter_udg g (100 : α) with
  | none => none
  | some altered =>
    let altering := decide (gshape altered ≠ gshape g)
    let counts := (speciesNames dfs).map (fun s => (s, 1))
    match dfs with
    | [] => some counts
    | _ :: _ =>
      foldOpt
        (fun cs (i : ℕ) =>
          stepWindow dfs g altering hearing_radius time_delta_detection cs
            (minBegin dfs + (i : ℤ) * time_delta_detection))
        counts
        (List.range (numWindows (minBegin dfs) (maxEnd dfs) time_delta_detection))

/-- The value every completing run of `count_birds` returns (see
`count_birds_of_no_triangles` below): the pure window fold.  Note that it
does not depend on the `hearing_radius` argument. -/
def pureRun {α : Type} [LinearOrderedField α] (df : List Det) (g : Graph α)
    (td : ℤ) : List (ℕ × ℕ) :=
  let dfs := sortByBegin df
  let counts := (speciesNames dfs).map (fun s => (s, 1))
  match dfs with
  | [] => counts
  | _ :: _ =>
    (List.range (numWindows (minBegin dfs) (maxEnd dfs) td)).foldl
      (fun cs (i : ℕ) => stepPure dfs g td cs (minBegin dfs + (i : ℤ) * td)) counts

/-- The stored estimates after the first `k` windows of the pure fold. -/
def stateAfter {α : Type} [LinearOrderedField α] (df : List Det) (g : Graph α)
    (td : ℤ) (k : ℕ) : List (ℕ × ℕ) :=
  let dfs := sortByBegin df
  (List.range k).foldl
    (fun cs (i : ℕ) => stepPure dfs g td cs (minBegin dfs + (i : ℤ) * td))
    ((speciesNames dfs).map (fun s => (s, 1)))

/-- The number of windows of the sliding pass for a given input. -/
def nWindows (df : List Det) (td : ℤ) : ℕ :=
  match sortByBegin df with
  | [] => 0
  | dfs@(_ :: _) => numWindows (minBegin dfs) (maxEnd dfs) td

/-- The per-window counts computed for species `s` during the first `k`
windows. -/
def wsCounts {α : Type} [LinearOrderedField α] (df : List Det) (g : Graph α)
    (td : ℤ) (k : ℕ) (s : ℕ) : List ℕ :=
  let dfs := sortByBegin df
  (List.range k).filterMap
    (fun (i : ℕ) => windowSpeciesCount dfs g td (minBegin dfs + (i : ℤ) * td) s)

/-! ### Heap-passing embedding of `count_birds`

Python graphs are mutable objects: `alter_udg` mutates the graph it is
given, and the clique loop mutates `graph_species` in place.  To state the
frame property of `count_birds` — the caller's graph object is untouched —
the same algorithm is embedded once more with an explicit heap of graph
objects: a call receives the heap and a reference to the caller's graph,
`graph.copy()` and `nx.Graph(graph.subgraph(...))` allocate fresh objects,
and every mutation is performed at a reference. -/

/-- The default (empty) graph object. -/
def nullGraph {α : Type} : Graph α := { nodes := [], pos := [], edges := [] }

/-- A heap of graph objects; a reference is an index. -/
abbrev GraphStore (α : Type) : Type := List (Graph α)

/-- Dereference. -/
def getRef {α : Type} (st : GraphStore α) (r : ℕ) : Graph α :=
  List.getD st r nullGraph

/-- In-place mutation of the referenced object. -/
def setRef {α : Type} (st : GraphStore α) (r : ℕ) (g : Graph α) : GraphStore α :=
  List.set st r g

/-- Allocation of a fresh object (`graph.copy()`, `nx.Graph(...)`). -/
def allocRef {α : Type} (st : GraphStore α) (g : Graph α) : GraphStore α × ℕ :=
  (st ++ [g], st.length)

/-- `alter_udg` applied to the object behind `r`: network mutation in place
(the source mutates its argument and returns the same object). -/
def alterUdgAt {α : Type} [LinearOrderedField α] (st : GraphStore α) (r : ℕ)
    (hearing_radius : α) : Option (GraphStore α) :=
  match alter_udg (getRef st r) hearing_radius with
  | none => none
  | some g => some (setRef st r g)

/-- The clique-removal loop of lines 77-81, mutating the graph behind `r`:
each round removes a maximum clique from the referenced object.  Fuel as in
`cliqueCoverAux`. -/
def cliqueLoopAt {α : Type} : ℕ → GraphStore α → ℕ → ℕ × GraphStore α
  | 0, st, _ => (0, st)
  | fuel + 1, st, r =>
    if (getRef st r).nodes.isEmpty then (0, st)
    else
      let st' := setRef st r (removeNodes (getRef st r) (maxClique (getRef st r)))
      let res := cliqueLoopAt fuel st' r
      (res.1 + 1, res.2)

/-- Heap-passing version of `speciesStep`: lines 64-85 for one species.  The
induced subgraph is copied into a FRESH object (`nx.Graph(graph.subgraph(...))`,
line 72); `alter_udg` and the clique loop mutate only that fresh object. -/
def speciesStepAt {α : Type} [LinearOrderedField α] (gRef : ℕ) (altering : Bool)
    (hr : α) (pairs : List (ℕ × ℕ)) (state : List (ℕ × ℕ) × GraphStore α)
    (s : ℕ) : Option (List (ℕ × ℕ) × GraphStore α) :=
  let ns := speciesNodes pairs s
  if 1 < ns.length then
    let al := allocRef state.2 (subgraphOf (getRef state.2 gRef) ns)
    match (if altering then alterUdgAt al.1 al.2 hr else some al.1) with
    | none => none
    | some st2 =>
      let res := cliqueLoopAt (getRef st2 al.2).nodes.length st2 al.2
      some (updateIfGreater state.1 s res.1, res.2)
  else some state

/-- Heap-passing version of `stepWindow`. -/
def stepWindowAt {α : Type} [LinearOrderedField α] (dfs : List Det) (gRef : ℕ)
    (altering : Bool) (hr : α) (td : ℤ) (state : List (ℕ × ℕ) × GraphStore α)
    (wb : ℤ) : Option (List (ℕ × ℕ) × GraphStore α) :=
  let sel := windowSel dfs wb (wb + td)
  if sel.length = 0 then some state
  else
    let pairs := windowPairs sel
    if pairs.length = 1 ∨ (windowSpecies pairs).length = pairs.length then some state
    else foldOpt (speciesStepAt gRef altering hr pairs) state (windowSpecies pairs)

/-- Heap-passing `count_birds`: takes the heap and a reference to the
caller's graph, returns the estimates together with the final heap.  Line 31
copies the caller's graph into a fresh object and runs `alter_udg` on THAT
object. -/
def count_birds_heap {α : Type} [LinearOrderedField α] (df : List Det)
    (st0 : GraphStore α) (gRef : ℕ) (time_delta_detection : ℤ)
    (hearing_radius : α) : Option (List (ℕ × ℕ) × GraphStore α) :=
  let dfs := sortByBegin df
  let al := allocRef st0 (getRef st0 gRef)
  match alterUdgAt al.1 al.2 (100 : α) with
  | none => none
  | some st2 =>
    let altering := decide (gshape (getRef st2 al.2) ≠ gshape (getRef st2 gRef))
    let counts := (speciesNames dfs).map (fun s => (s, 1))
    match dfs with
    | [] => some (counts, st2)
    | _ :: _ =>
      foldOpt
        (fun state (i : ℕ) =>
          stepWindowAt dfs gRef altering hearing_radius time_delta_detection state
            (minBegin dfs + (i : ℤ) * time_delta_detection))
        (counts, st2)
        (List.range (numWindows (minBegin dfs) (maxEnd dfs) time_delta_detection))

/-! ### Concrete inputs used in the witnesses and counterexamples -/

/-- A single node at the origin, no edges. -/
def graphOneNode : Graph ℚ :=
  { nodes := [0], pos := [(0, (0, 0))], edges := [] }

/-- One detection of species 7 at node 0 during `[0, 3]`. -/
def detSimple : Det := { node := 0, species := 7, beginTime := 0, endTime := 3 }

/-- A dataframe holding only `detSimple`. -/
def dfSingle : List Det := [detSimple]

/-- A detection of species 5 lasting from time 0 to time 10: it overlaps the
window `[3, 6)` of a pass with window width 3, yet the mask of lines 46-47
does not select it. -/
def detLong : Det := { node := 0, species := 5, beginTime := 0, endTime := 10 }

/-- Two detections of species 7, one from node 0 (present in the graph) and
one from node 99 (absent from every graph below). -/
def dfUnknown : List Det :=
  [{ node := 0, species := 7, beginTime := 0, endTime := 3 },
   { node := 99, species := 7, beginTime := 0, endTime := 3 }]

/-- Two nodes 10 m apart joined by one edge; no 3-clique. -/
def graphTwoNodes : Graph ℚ :=
  { nodes := [0, 1], pos := [(0, (0, 0)), (1, (10, 0))], edges := [(0, 1, 10)] }

/-- A complete 3-clique on a 3-4-5 right triangle: nodes at `(0,0)`, `(3,0)`,
`(0,4)`, edge weights equal to the exact Euclidean distances 3, 4 and 5.
Its points are not collinear, and its smallest enclosing circle (radius 5/2,
centred on the hypotenuse midpoint) exceeds a hearing radius of 1. -/
def graphTriangle : Graph ℚ :=
  { nodes := [0, 1, 2]
    pos := [(0, (0, 0)), (1, (3, 0)), (2, (0, 4))]
    edges := [(0, 1, 3), (0, 2, 4), (1, 2, 5)] }

/-- Two nodes at `(0,0)` and `(3,4)` with no edges: the input to `build_udg`
in the witness; their distance 5 is exactly `hearing_radius * 2` for a
hearing radius of 5/2, exercising the inclusive boundary. -/
def graphForUdg : Graph ℝ :=
  { nodes := [0, 1], pos := [(0, (0, 0)), (1, (3, 4))], edges := [] }

/-! ## Basic lemmas -/

/-- `numWindows` is exactly the iteration count of the source's `while`
loop: for a positive window width, iteration `i` (whose window start is
`wb + i * td`) runs if and only if `i < numWindows wb last td`. -/
theorem numWindows_iff (wb last td : ℤ) (h : 0 < td) (i : ℕ) :
    i < numWindows wb last td ↔ wb + (i : ℤ) * td < last := by
  unfold numWindows
  rw [if_pos h, Int.lt_toNat, Int.fdiv_eq_ediv _ (le_of_lt h)]
  have hK := Int.le_ediv_iff_mul_le (a := -(i : ℤ)) (b := -(last - wb)) (c := td) h
  constructor
  · intro hi
    have h1 : -(last - wb) / td < -(i : ℤ) := by linarith
    have h2 : ¬ (-(i : ℤ) ≤ -(last - wb) / td) := not_le.mpr h1
    rw [hK] at h2
    push_neg at h2
    nlinarith [h2]
  · intro hl
    have h2 : -(last - wb) < -(i : ℤ) * td := by nlinarith
    have h3 : ¬ (-(i : ℤ) * td ≤ -(last - wb)) := not_le.mpr h2
    rw [← hK] at h3
    push_neg at h3
    linarith

theorem foldOpt_of_total {σ β : Type} (f : σ → β → Option σ) (fp : σ → β → σ)
    (h : ∀ s b, f s b = some (fp s b)) :
    ∀ (l : List β) (s : σ), foldOpt f s l = some (l.foldl fp s)
  | [], _ => rfl
  | x :: xs, s => by
    simp only [foldOpt, h s x, List.foldl_cons]
    exact foldOpt_of_total f fp h xs (fp s x)

theorem foldOpt_preserve {σ β : Type} (P : σ → Prop) (f : σ → β → Option σ)
    (hstep : ∀ s b s', P s → f s b = some s' → P s') :
    ∀ (l : List β) (s s' : σ), P s → foldOpt f s l = some s' → P s'
  | [], s, s', hp, he => by
    simp only [foldOpt, Option.some.injEq] at he
    exact he ▸ hp
  | x :: xs, s, s', hp, he => by
    rcases hfx : f s x with _ | s1
    · rw [foldOpt, hfx] at he
      cases he
    · rw [foldOpt, hfx] at he
      exact foldOpt_preserve P f hstep xs s1 s' (hstep s x s1 hp hfx) he

theorem mem_dropDuplicatesAux {β : Type} [DecidableEq β] :
    ∀ (l seen : List β) (a : β), a ∈ dropDuplicatesAux seen l ↔ a ∈ l ∧ a ∉ seen
  | [], seen, a => by simp [dropDuplicatesAux]
  | x :: xs, seen, a => by
    by_cases hx : seen.contains x
    · rw [dropDuplicatesAux, if_pos hx, mem_dropDuplicatesAux xs seen a]
      have hxs : x ∈ seen := by simpa using hx
      constructor
      · rintro ⟨h1, h2⟩
        exact ⟨List.mem_cons_of_mem x h1, h2⟩
      · rintro ⟨h1, h2⟩
        rcases List.mem_cons.mp h1 with h1 | h1
        · exact absurd (h1 ▸ hxs) h2
        · exact ⟨h1, h2⟩
    · rw [dropDuplicatesAux, if_neg hx]
      have hxs : x ∉ seen := by simpa using hx
      rw [List.mem_cons, mem_dropDuplicatesAux xs (x :: seen) a]
      constructor
      · rintro (rfl | ⟨h1, h2⟩)
        · exact ⟨List.mem_cons_self a xs, hxs⟩
        · exact ⟨List.mem_cons_of_mem x h1,
            fun hsn => h2 (List.mem_cons_of_mem x hsn)⟩
      · rintro ⟨h1, h2⟩
        by_cases hax : a = x
        · exact Or.inl hax
        · have h1x : a ∈ xs := by
            rcases List.mem_cons.mp h1 with h | h
            · exact absurd h hax
            · exact h
          refine Or.inr ⟨h1x, fun hsn => ?_⟩
          rcases List.mem_cons.mp hsn with h | h
          · exact hax h
          · exact h2 h

theorem nodup_dropDuplicatesAux {β : Type} [DecidableEq β] :
    ∀ (l seen : List β), (dropDuplicatesAux seen l).Nodup
  | [], _ => List.nodup_nil
  | x :: xs, seen => by
    by_cases hx : seen.contains x
    · rw [dropDuplicatesAux, if_pos hx]
      exact nodup_dropDuplicatesAux xs seen
    · rw [dropDuplicatesAux, if_neg hx]
      refine List.nodup_cons.mpr ⟨fun hmem => ?_, nodup_dropDuplicatesAux xs (x :: seen)⟩
      exact ((mem_dropDuplicatesAux xs (x :: seen) x).mp hmem).2 (List.mem_cons_self x seen)

theorem mem_dropDuplicates {β : Type} [DecidableEq β] (l : List β) (a : β) :
    a ∈ dropDuplicates l ↔ a ∈ l := by
  rw [dropDuplicates, mem_dropDuplicatesAux]
  simp

theorem nodup_dropDuplicates {β : Type} [DecidableEq β] (l : List β) :
    (dropDuplicates l).Nodup :=
  nodup_dropDuplicatesAux l []

theorem alookup_updateIfGreater :
    ∀ (cs : List (ℕ × ℕ)) (s t c : ℕ),
      alookup s (updateIfGreater cs t c) =
        if s = t then (alookup s cs).map (fun v => max v c) else alookup s cs
  | [], s, t, c => by simp [alookup, updateIfGreater]
  | kv :: cs, s, t, c => by
    by_cases hk : kv.1 = s
    · by_cases hst : s = t
      · subst hst
        by_cases hlt : kv.2 < c
        · simp only [updateIfGreater, List.map_cons, alookup, if_pos (And.intro hk hlt),
            if_pos rfl, if_pos hk]
          have : max kv.2 c = c := by omega
          simp [this]
        · have hno : ¬ (kv.1 = s ∧ kv.2 < c) := fun hcon => hlt hcon.2
          simp only [updateIfGreater, List.map_cons, alookup, if_neg hno, if_pos hk,
            if_pos rfl]
          have : max kv.2 c = kv.2 := by omega
          simp [this]
      · have hno : ¬ (kv.1 = t ∧ kv.2 < c) := fun hcon => hst (hk ▸ hcon.1)
        simp [updateIfGreater, alookup, hno, hk, hst]
    · by_cases h1 : kv.1 = t ∧ kv.2 < c
      · have hk1 : ¬ ((kv.1, c).1 = s) := hk
        simp only [updateIfGreater, List.map_cons, if_pos h1, alookup, if_neg hk1,
          if_neg hk]
        exact alookup_updateIfGreater cs s t c
      · simp only [updateIfGreater, List.map_cons, if_neg h1, alookup, if_neg hk]
        exact alookup_updateIfGreater cs s t c

theorem keys_updateIfGreater (cs : List (ℕ × ℕ)) (t c : ℕ) :
    (updateIfGreater cs t c).map Prod.fst = cs.map Prod.fst := by
  simp only [updateIfGreater, List.map_map]
  congr 1
  funext kv
  by_cases h : kv.1 = t ∧ kv.2 < c <;> simp [h]

theorem values_updateIfGreater (cs : List (ℕ × ℕ)) (t c : ℕ)
    (h : ∀ p ∈ cs, 1 ≤ p.2) : ∀ p ∈ updateIfGreater cs t c, 1 ≤ p.2 := by
  intro p hp
  rw [updateIfGreater, List.mem_map] at hp
  obtain ⟨kv, hkv, heq⟩ := hp
  have h2 := h kv hkv
  by_cases hc : kv.1 = t ∧ kv.2 < c
  · rw [if_pos hc] at heq
    have hc2 : (1 : ℕ) ≤ c := by omega
    rw [← heq]
    exact hc2
  · rw [if_neg hc] at heq
    exact heq ▸ h2

theorem alookup_init :
    ∀ (l : List ℕ) (s : ℕ), s ∈ l → alookup s (l.map (fun t => (t, 1))) = some 1
  | [], s, h => absurd h (List.not_mem_nil s)
  | t :: ts, s, h => by
    by_cases hts : t = s
    · simp [alookup, hts]
    · have hmem : s ∈ ts := by
        rcases List.mem_cons.mp h with rfl | hm
        · exact absurd rfl hts
        · exact hm
      simp [alookup, hts, alookup_init ts s hmem]

theorem alter_udg_no_tri {α : Type} [LinearOrderedField α] (g : Graph α) (r : α)
    (h : trianglesList g = []) : alter_udg g r = some g := by
  unfold alter_udg get_smallest_enclosing_circles
  rw [h]
  rfl

theorem alter_udg_tri {α : Type} [LinearOrderedField α] (g : Graph α) (r : α)
    (h : trianglesList g ≠ []) : alter_udg g r = none := by
  unfold alter_udg get_smallest_enclosing_circles
  cases ht : trianglesList g with
  | nil => exact absurd ht h
  | cons a l => rfl

theorem alter_udg_some {α : Type} [LinearOrderedField α] (g : Graph α) (r : α)
    (a : Graph α) (h : alter_udg g r = some a) : a = g := by
  cases ht : trianglesList g with
  | nil =>
    rw [alter_udg_no_tri g r ht] at h
    exact (Option.some.inj h).symm
  | cons x l =>
    rw [alter_udg_tri g r (by simp [ht])] at h
    cases h

/-! ## The pure fold computed by every completing run of `count_birds` -/

theorem speciesStep_false {α : Type} [LinearOrderedField α] (g : Graph α) (hr : α)
    (pairs : List (ℕ × ℕ)) (cs : List (ℕ × ℕ)) (s : ℕ) :
    speciesStep g false hr pairs cs s =
      some (if 1 < (speciesNodes pairs s).length then
        updateIfGreater cs s (cliqueCover (subgraphOf g (speciesNodes pairs s)))
      else cs) := by
  unfold speciesStep
  by_cases h : 1 < (speciesNodes pairs s).length <;> simp [h]

theorem stepWindow_false {α : Type} [LinearOrderedField α] (dfs : List Det)
    (g : Graph α) (hr : α) (td : ℤ) (cs : List (ℕ × ℕ)) (wb : ℤ) :
    stepWindow dfs g false hr td cs wb = some (stepPure dfs g td cs wb) := by
  unfold stepWindow stepPure
  by_cases h1 : (windowSel dfs wb (wb + td)).length = 0
  · simp [h1]
  · simp only [if_neg h1]
    by_cases h2 : (windowPairs (windowSel dfs wb (wb + td))).length = 1 ∨
        (windowSpecies (windowPairs (windowSel dfs wb (wb + td)))).length =
          (windowPairs (windowSel dfs wb (wb + td))).length
    · simp [h2]
    · simp only [if_neg h2]
      exact foldOpt_of_total _ _ (fun cs2 s => speciesStep_false g hr _ cs2 s) _ cs

theorem count_birds_of_no_tri {α : Type} [LinearOrderedField α] (df : List Det)
    (g : Graph α) (td : ℤ) (hr : α) (h : trianglesList g = []) :
    count_birds df g td hr = some (pureRun df g td) := by
  unfold count_birds pureRun
  rw [alter_udg_no_tri g (100 : α) h]
  have hflag : (decide (gshape g ≠ gshape g)) = false := by simp
  cases hdf : sortByBegin df with
  | nil => simp [hdf]
  | cons d rest =>
    simp only [hdf, hflag]
    exact foldOpt_of_total _ _
      (fun cs i => stepWindow_false (d :: rest) g hr td cs _) _ _

theorem count_birds_none_iff {α : Type} [LinearOrderedField α] (df : List Det)
    (g : Graph α) (td : ℤ) (hr : α) :
    count_birds df g td hr = none ↔ trianglesList g ≠ [] := by
  constructor
  · intro h hcon
    rw [count_birds_of_no_tri df g td hr hcon] at h
    cases h
  · intro h
    unfold count_birds
    rw [alter_udg_tri g (100 : α) h]

theorem speciesFold_alookup {α : Type} [LinearOrderedField α] (g : Graph α)
    (pairs : List (ℕ × ℕ)) :
    ∀ (l : List ℕ) (cs : List (ℕ × ℕ)) (s : ℕ),
      alookup s (l.foldl (fun cs2 t =>
        if 1 < (speciesNodes pairs t).length then
          updateIfGreater cs2 t (cliqueCover (subgraphOf g (speciesNodes pairs t)))
        else cs2) cs) =
      if s ∈ l ∧ 1 < (speciesNodes pairs s).length then
        (alookup s cs).map
          (fun v => max v (cliqueCover (subgraphOf g (speciesNodes pairs s))))
      else alookup s cs
  | [], cs, s => by simp
  | t :: l, cs, s => by
    rw [List.foldl_cons, speciesFold_alookup g pairs l _ s]
    by_cases hts : s = t
    · subst hts
      by_cases hbig : 1 < (speciesNodes pairs s).length
      · rw [if_pos hbig, alookup_updateIfGreater cs s s _, if_pos rfl]
        by_cases hmem : s ∈ l
        · rw [if_pos ⟨hmem, hbig⟩, if_pos ⟨List.mem_cons_self s l, hbig⟩]
          cases halk : alookup s cs
          · rfl
          · simp only [Option.map_some']
            rw [max_assoc, max_self]
        · rw [if_neg (fun hcon => hmem hcon.1), if_pos ⟨List.mem_cons_self s l, hbig⟩]
      · rw [if_neg hbig, if_neg (fun hcon => hbig hcon.2),
          if_neg (fun hcon => hbig hcon.2)]
    · by_cases hbig : 1 < (speciesNodes pairs t).length
      · rw [if_pos hbig, alookup_updateIfGreater cs s t _, if_neg hts]
        by_cases hm : s ∈ l ∧ 1 < (speciesNodes pairs s).length
        · rw [if_pos hm, if_pos ⟨List.mem_cons_of_mem t hm.1, hm.2⟩]
        · rw [if_neg hm, if_neg (fun hcon => ?_)]
          rcases List.mem_cons.mp hcon.1 with h | h
          · exact hts h
          · exact hm ⟨h, hcon.2⟩
      · rw [if_neg hbig]
        by_cases hm : s ∈ l ∧ 1 < (speciesNodes pairs s).length
        · rw [if_pos hm, if_pos ⟨List.mem_cons_of_mem t hm.1, hm.2⟩]
        · rw [if_neg hm, if_neg (fun hcon => ?_)]
          rcases List.mem_cons.mp hcon.1 with h | h
          · exact hts h
          · exact hm ⟨h, hcon.2⟩

theorem alookup_stepPure {α : Type} [LinearOrderedField α] (dfs : List Det)
    (g : Graph α) (td : ℤ) (cs : List (ℕ × ℕ)) (wb : ℤ) (s : ℕ) :
    alookup s (stepPure dfs g td cs wb) =
      match windowSpeciesCount dfs g td wb s with
      | none => alookup s cs
      | some c => (alookup s cs).map (fun v => max v c) := by
  unfold stepPure windowSpeciesCount
  by_cases h1 : (windowSel dfs wb (wb + td)).length = 0
  · simp [h1]
  · simp only [if_neg h1]
    by_cases h2 : (windowPairs (windowSel dfs wb (wb + td))).length = 1 ∨
        (windowSpecies (windowPairs (windowSel dfs wb (wb + td)))).length =
          (windowPairs (windowSel dfs wb (wb + td))).length
    · simp [h2]
    · simp only [if_neg h2]
      rw [speciesFold_alookup]
      by_cases h3 : s ∈ windowSpecies (windowPairs (windowSel dfs wb (wb + td))) ∧
          1 < (speciesNodes (windowPairs (windowSel dfs wb (wb + td))) s).length
      · rw [if_pos h3, if_pos h3]
      · rw [if_neg h3, if_neg h3]

theorem stateAfter_zero {α : Type} [LinearOrderedField α] (df : List Det)
    (g : Graph α) (td : ℤ) :
    stateAfter df g td 0 = (speciesNames (sortByBegin df)).map (fun s => (s, 1)) := by
  simp [stateAfter]

theorem stateAfter_succ {α : Type} [LinearOrderedField α] (df : List Det)
    (g : Graph α) (td : ℤ) (k : ℕ) :
    stateAfter df g td (k + 1) =
      stepPure (sortByBegin df) g td (stateAfter df g td k)
        (minBegin (sortByBegin df) + (k : ℤ) * td) := by
  unfold stateAfter
  rw [List.range_succ, List.foldl_append, List.foldl_cons, List.foldl_nil]

theorem wsCounts_succ {α : Type} [LinearOrderedField α] (df : List Det)
    (g : Graph α) (td : ℤ) (k : ℕ) (s : ℕ) :
    wsCounts df g td (k + 1) s = wsCounts df g td k s ++
      (windowSpeciesCount (sortByBegin df) g td
        (minBegin (sortByBegin df) + (k : ℤ) * td) s).toList := by
  unfold wsCounts
  rw [List.range_succ, List.filterMap_append]
  cases hw : windowSpeciesCount (sortByBegin df) g td
      (minBegin (sortByBegin df) + (k : ℤ) * td) s <;>
    simp [hw]

theorem le_foldl_max : ∀ (l : List ℕ) (a : ℕ), a ≤ l.foldl max a
  | [], a => le_refl a
  | x :: l, a => le_trans (le_max_left a x) (le_foldl_max l (max a x))

theorem pureRun_eq_stateAfter {α : Type} [LinearOrderedField α] (df : List Det)
    (g : Graph α) (td : ℤ) :
    pureRun df g td = stateAfter df g td (nWindows df td) := by
  unfold pureRun stateAfter nWindows
  cases hdf : sortByBegin df with
  | nil => simp [hdf]
  | cons d rest => simp [hdf]

theorem alookup_stateAfter {α : Type} [LinearOrderedField α] (df : List Det)
    (g : Graph α) (td : ℤ) (s : ℕ) (hs : s ∈ speciesNames (sortByBegin df)) :
    ∀ k : ℕ, alookup s (stateAfter df g td k) =
      some ((wsCounts df g td k s).foldl max 1)
  | 0 => by
    rw [stateAfter_zero, alookup_init _ s hs]
    simp [wsCounts]
  | k + 1 => by
    rw [stateAfter_succ, alookup_stepPure, wsCounts_succ,
      alookup_stateAfter df g td s hs k]
    cases hw : windowSpeciesCount (sortByBegin df) g td
        (minBegin (sortByBegin df) + (k : ℤ) * td) s with
    | none => simp
    | some c => simp [List.foldl_append]

theorem wsCounts_mono {α : Type} [LinearOrderedField α] (df : List Det)
    (g : Graph α) (td : ℤ) (s : ℕ) (j k : ℕ) (h : j ≤ k) :
    (wsCounts df g td j s).foldl max 1 ≤ (wsCounts df g td k s).foldl max 1 := by
  induction k with
  | zero =>
    have hj : j = 0 := Nat.le_zero.mp h
    subst hj
    exact le_rfl
  | succ k ih =>
    by_cases hj : j ≤ k
    · refine le_trans (ih hj) ?_
      rw [wsCounts_succ]
      cases hw : windowSpeciesCount (sortByBegin df) g td
          (minBegin (sortByBegin df) + (k : ℤ) * td) s with
      | none => simp
      | some c =>
        simp only [Option.toList, List.foldl_append, List.foldl_cons, List.foldl_nil]
        exact le_max_left _ _
    · have hj1 : j = k + 1 := by omega
      subst hj1
      exact le_rfl

/-! ## Membership and invariants of the species-count map -/

theorem mem_sortByBegin (df : List Det) (d : Det) :
    d ∈ sortByBegin df ↔ d ∈ df :=
  (List.perm_insertionSort detLe df).mem_iff

theorem mem_map_sortByBegin (df : List Det) (s : ℕ) :
    s ∈ (sortByBegin df).map (fun d => d.species) ↔
      s ∈ df.map (fun d => d.species) :=
  ((List.perm_insertionSort detLe df).map (fun d => d.species)).mem_iff

theorem mem_speciesNames (dfs : List Det) (s : ℕ) :
    s ∈ speciesNames dfs ↔ s ∈ dfs.map (fun d => d.species) := by
  unfold speciesNames
  rw [(List.perm_insertionSort _ _).mem_iff, mem_dropDuplicates]

theorem nodup_speciesNames (dfs : List Det) : (speciesNames dfs).Nodup := by
  unfold speciesNames
  exact (List.perm_insertionSort _ _).nodup_iff.mpr (nodup_dropDuplicates _)

theorem foldl_invariant {σ β : Type} (P : σ → Prop) (f : σ → β → σ)
    (h : ∀ s b, P s → P (f s b)) :
    ∀ (l : List β) (s : σ), P s → P (l.foldl f s)
  | [], _, hp => hp
  | x :: xs, s, hp => foldl_invariant P f h xs (f s x) (h s x hp)

theorem keys_speciesFold {α : Type} [LinearOrderedField α] (g : Graph α)
    (pairs : List (ℕ × ℕ)) (l : List ℕ) (cs : List (ℕ × ℕ)) :
    (l.foldl (fun cs2 t =>
      if 1 < (speciesNodes pairs t).length then
        updateIfGreater cs2 t (cliqueCover (subgraphOf g (speciesNodes pairs t)))
      else cs2) cs).map Prod.fst = cs.map Prod.fst := by
  induction l generalizing cs with
  | nil => rfl
  | cons t l ih =>
    rw [List.foldl_cons]
    rw [ih]
    by_cases h : 1 < (speciesNodes pairs t).length
    · rw [if_pos h, keys_updateIfGreater]
    · rw [if_neg h]

theorem keys_stepPure {α : Type} [LinearOrderedField α] (dfs : List Det)
    (g : Graph α) (td : ℤ) (cs : List (ℕ × ℕ)) (wb : ℤ) :
    (stepPure dfs g td cs wb).map Prod.fst = cs.map Prod.fst := by
  unfold stepPure
  by_cases h1 : (windowSel dfs wb (wb + td)).length = 0
  · simp [h1]
  · simp only [if_neg h1]
    by_cases h2 : (windowPairs (windowSel dfs wb (wb + td))).length = 1 ∨
        (windowSpecies (windowPairs (windowSel dfs wb (wb + td)))).length =
          (windowPairs (windowSel dfs wb (wb + td))).length
    · simp [h2]
    · simp only [if_neg h2]
      exact keys_speciesFold g _ _ cs

theorem values_speciesFold {α : Type} [LinearOrderedField α] (g : Graph α)
    (pairs : List (ℕ × ℕ)) (l : List ℕ) (cs : List (ℕ × ℕ))
    (h : ∀ p ∈ cs, 1 ≤ p.2) :
    ∀ p ∈ (l.foldl (fun cs2 t =>
      if 1 < (speciesNodes pairs t).length then
        updateIfGreater cs2 t (cliqueCover (subgraphOf g (speciesNodes pairs t)))
      else cs2) cs), 1 ≤ p.2 := by
  refine foldl_invariant (fun cs2 => ∀ p ∈ cs2, 1 ≤ p.2) _ ?_ l cs h
  intro cs2 t hp
  by_cases hb : 1 < (speciesNodes pairs t).length
  · rw [if_pos hb]
    exact values_updateIfGreater cs2 t _ hp
  · rw [if_neg hb]
    exact hp

theorem values_stepPure {α : Type} [LinearOrderedField α] (dfs : List Det)
    (g : Graph α) (td : ℤ) (cs : List (ℕ × ℕ)) (wb : ℤ)
    (h : ∀ p ∈ cs, 1 ≤ p.2) : ∀ p ∈ stepPure dfs g td cs wb, 1 ≤ p.2 := by
  unfold stepPure
  by_cases h1 : (windowSel dfs wb (wb + td)).length = 0
  · simpa [h1] using h
  · simp only [if_neg h1]
    by_cases h2 : (windowPairs (windowSel dfs wb (wb + td))).length = 1 ∨
        (windowSpecies (windowPairs (windowSel dfs wb (wb + td)))).length =
          (windowPairs (windowSel dfs wb (wb + td))).length
    · simpa [h2] using h
    · simp only [if_neg h2]
      exact values_speciesFold g _ _ cs h

theorem map_fst_pairs (l : List ℕ) :
    (l.map (fun s => (s, 1))).map Prod.fst = l := by
  induction l with
  | nil => rfl
  | cons x l ih => simp [ih]

theorem keys_windowFold {α : Type} [LinearOrderedField α] (dfs : List Det)
    (g : Graph α) (td : ℤ) :
    ∀ (l : List ℕ) (cs : List (ℕ × ℕ)),
      ((l.foldl (fun cs2 (i : ℕ) =>
        stepPure dfs g td cs2 (minBegin dfs + (i : ℤ) * td)) cs).map Prod.fst) =
        cs.map Prod.fst
  | [], _ => rfl
  | i :: l, cs => by
    rw [List.foldl_cons, keys_windowFold dfs g td l _, keys_stepPure]

theorem values_windowFold {α : Type} [LinearOrderedField α] (dfs : List Det)
    (g : Graph α) (td : ℤ) (l : List ℕ) (cs : List (ℕ × ℕ))
    (h : ∀ p ∈ cs, 1 ≤ p.2) :
    ∀ p ∈ (l.foldl (fun cs2 (i : ℕ) =>
      stepPure dfs g td cs2 (minBegin dfs + (i : ℤ) * td)) cs), 1 ≤ p.2 := by
  refine foldl_invariant (fun cs2 => ∀ p ∈ cs2, 1 ≤ p.2)
    (fun cs2 (i : ℕ) => stepPure dfs g td cs2 (minBegin dfs + (i : ℤ) * td))
    ?_ l cs h
  intro cs2 i hp
  exact values_stepPure dfs g td cs2 _ hp

theorem values_init (l : List ℕ) :
    ∀ p ∈ l.map (fun s => (s, 1)), 1 ≤ p.2 := by
  intro p hp
  rw [List.mem_map] at hp
  obtain ⟨t, _, heq⟩ := hp
  rw [← heq]

theorem keys_pureRun {α : Type} [LinearOrderedField α] (df : List Det)
    (g : Graph α) (td : ℤ) :
    (pureRun df g td).map Prod.fst = speciesNames (sortByBegin df) := by
  unfold pureRun
  cases hdf : sortByBegin df with
  | nil => exact map_fst_pairs _
  | cons d rest => rw [keys_windowFold, map_fst_pairs]

theorem values_pureRun {α : Type} [LinearOrderedField α] (df : List Det)
    (g : Graph α) (td : ℤ) : ∀ p ∈ pureRun df g td, 1 ≤ p.2 := by
  unfold pureRun
  cases hdf : sortByBegin df with
  | nil => exact values_init _
  | cons d rest => exact values_windowFold _ g td _ _ (values_init _)

/-! ## Claims about the window counter -/

/-- C2: for every input on which `count_birds` returns a map, that map has an
entry (with value at least 1) for exactly the species that appear in at
least one input detection, no entry for any other species, and for an empty
input the returned map is empty. -/
theorem c2_species_count_map (df : List Det) (g : Graph ℚ) (td : ℤ) (hr : ℚ)
    (m : List (ℕ × ℕ)) (hm : count_birds df g td hr = some m) :
    (∀ p ∈ m, 1 ≤ p.2 ∧ p.1 ∈ df.map (fun d => d.species)) ∧
    (∀ s ∈ df.map (fun d => d.species), ∃ c, (s, c) ∈ m) ∧
    (m.map Prod.fst).Nodup ∧
    (df = [] → m = []) := by
  have htri : trianglesList g = [] := by
    by_contra hcon
    rw [(count_birds_none_iff df g td hr).mpr hcon] at hm
    cases hm
  rw [count_birds_of_no_tri df g td hr htri] at hm
  have hme : m = pureRun df g td := (Option.some.inj hm).symm
  subst hme
  have hkeys := keys_pureRun df g td
  refine ⟨?_, ?_, ?_, ?_⟩
  · intro p hp
    refine ⟨values_pureRun df g td p hp, ?_⟩
    have h1 : p.1 ∈ (pureRun df g td).map Prod.fst := List.mem_map_of_mem Prod.fst hp
    rw [hkeys, mem_speciesNames, mem_map_sortByBegin] at h1
    exact h1
  · intro s hs
    have h1 : s ∈ (pureRun df g td).map Prod.fst := by
      rw [hkeys, mem_speciesNames, mem_map_sortByBegin]
      exact hs
    rw [List.mem_map] at h1
    obtain ⟨p, hp, heq⟩ := h1
    exact ⟨p.2, by rw [← heq]; exact hp⟩
  · rw [hkeys]
    exact nodup_speciesNames _
  · intro hdf
    subst hdf
    have h0 : (pureRun ([] : List Det) g td).map Prod.fst = [] := by
      rw [hkeys]
      rfl
    exact List.map_eq_nil.mp h0

/-- Witness for C2 at a concrete input: one detection of species 7 on a
one-node graph yields the map `[(7, 1)]`, which satisfies all the stated
properties. -/
theorem c2_witness :
    count_birds dfSingle graphOneNode 3 50 = some [(7, 1)] ∧
    ((∀ p ∈ [((7 : ℕ), (1 : ℕ))], 1 ≤ p.2 ∧ p.1 ∈ dfSingle.map (fun d => d.species)) ∧
     (∀ s ∈ dfSingle.map (fun d => d.species), ∃ c, (s, c) ∈ [((7 : ℕ), (1 : ℕ))]) ∧
     (([((7 : ℕ), (1 : ℕ))]).map Prod.fst).Nodup ∧
     (dfSingle = [] → [((7 : ℕ), (1 : ℕ))] = ([] : List (ℕ × ℕ)))) :=
  ⟨by decide, c2_species_count_map dfSingle graphOneNode 3 50 [(7, 1)] (by decide)⟩

/-- C9: `count_birds` is independent of its `hearing_radius` argument.  The
altering-necessity check at line 31 invokes `alter_udg` on the copied graph
with no radius argument, hence at `alter_udg`'s own default of `100.0`; the
only use of the caller-supplied radius is the per-species correction at line
74, which is guarded by that check and is never reached (whenever the check
itself completes, `alter_udg` has changed nothing, so the flag is false). -/
theorem c9_hearing_radius_independent {α : Type} [LinearOrderedField α]
    (df : List Det) (g : Graph α) (td : ℤ) (hr hr' : α) :
    count_birds df g td hr = count_birds df g td hr' := by
  cases ht : trianglesList g with
  | nil =>
    rw [count_birds_of_no_tri df g td hr ht, count_birds_of_no_tri df g td hr' ht]
  | cons x l =>
    have h : trianglesList g ≠ [] := by simp [ht]
    rw [(count_birds_none_iff df g td hr).mpr h,
      (count_birds_none_iff df g td hr').mpr h]

/-- C7: conditional on a completing run, the stored estimate of a species
after any prefix of the processed windows is the running maximum of 1 and
the per-window counts computed so far, and that running maximum is
monotonically non-decreasing in the number of processed windows. -/
theorem c7_running_max (df : List Det) (g : Graph ℚ) (td : ℤ) (hr : ℚ)
    (m : List (ℕ × ℕ)) (k j s : ℕ)
    (hm : count_birds df g td hr = some m)
    (hs : s ∈ speciesNames (sortByBegin df))
    (hjk : j ≤ k) (hkn : k ≤ nWindows df td) :
    m = stateAfter df g td (nWindows df td) ∧
    alookup s (stateAfter df g td k) = some ((wsCounts df g td k s).foldl max 1) ∧
    (wsCounts df g td j s).foldl max 1 ≤ (wsCounts df g td k s).foldl max 1 := by
  have htri : trianglesList g = [] := by
    by_contra hcon
    rw [(count_birds_none_iff df g td hr).mpr hcon] at hm
    cases hm
  rw [count_birds_of_no_tri df g td hr htri] at hm
  refine ⟨?_, alookup_stateAfter df g td s hs k, wsCounts_mono df g td s j k hjk⟩
  rw [← pureRun_eq_stateAfter]
  exact (Option.some.inj hm).symm

/-- Witness for C7: the single-window run on `dfSingle` (window [0,3), the
only window, computes no count, so species 7 keeps the running maximum of
the empty list, namely 1). -/
theorem c7_witness :
    count_birds dfSingle graphOneNode 3 50 = some [(7, 1)] ∧
    ([((7 : ℕ), (1 : ℕ))] = stateAfter dfSingle graphOneNode 3 (nWindows dfSingle 3) ∧
     alookup 7 (stateAfter dfSingle graphOneNode 3 1) =
       some ((wsCounts dfSingle graphOneNode 3 1 7).foldl max 1) ∧
     (wsCounts dfSingle graphOneNode 3 0 7).foldl max 1 ≤
       (wsCounts dfSingle graphOneNode 3 1 7).foldl max 1) :=
  ⟨by decide,
    c7_running_max dfSingle graphOneNode 3 50 [(7, 1)] 1 0 7 (by decide) (by decide)
      (by decide) (by decide)⟩

/-- C3 counterexample: the claim "any partial overlap counts" is false.  In
the pass over a dataframe whose single detection spans `[0, 10]` with window
width 3, the window `[3, 6)` is a window of the pass (there are 4 windows),
the detection overlaps it entirely, yet the mask of lines 46-47 does not
select it (its begin time is before the window and its end time after). -/
theorem c3_counterexample :
    numWindows 0 10 3 = 4 ∧
    ¬ (∀ d ∈ [detLong], d ∈ windowSel [detLong] 3 6 ↔
        (d.beginTime < 6 ∧ 3 < d.endTime)) := by
  constructor
  · decide
  · decide

/-- C3 (amended): the detections selected for a window are exactly those
whose `begin_time` lies in `[wb, we)` or whose `end_time` lies in
`(wb, we]`; equivalently, for detections of positive duration, those that
overlap the window EXCEPT any detection that strictly contains it — so not
every partial overlap counts. -/
theorem c3_window_selection (dfs : List Det) (wb we : ℤ) (d : Det)
    (hd : d.beginTime < d.endTime) :
    d ∈ windowSel dfs wb we ↔ d ∈ dfs ∧
      ((d.beginTime < we ∧ wb < d.endTime) ∧
       ¬ (d.beginTime < wb ∧ we < d.endTime)) := by
  unfold windowSel
  rw [List.mem_filter]
  constructor
  · rintro ⟨hmem, hsel⟩
    refine ⟨hmem, ?_⟩
    simp only [Bool.or_eq_true, Bool.and_eq_true, decide_eq_true_eq] at hsel
    rcases hsel with ⟨h1, h2⟩ | ⟨h1, h2⟩
    · exact ⟨⟨h2, by omega⟩, by omega⟩
    · exact ⟨⟨by omega, h1⟩, by omega⟩
  · rintro ⟨hmem, ⟨⟨h1, h2⟩, h3⟩⟩
    refine ⟨hmem, ?_⟩
    simp only [Bool.or_eq_true, Bool.and_eq_true, decide_eq_true_eq]
    by_cases hb : wb ≤ d.beginTime
    · exact Or.inl ⟨hb, h1⟩
    · exact Or.inr ⟨h2, by omega⟩

/-- Witness for C3 (amended) at the window `[0, 3)` and the detection
`[0, 3]` of `dfSingle`. -/
theorem c3_witness :
    detSimple.beginTime < detSimple.endTime ∧
    (detSimple ∈ windowSel dfSingle 0 3 ↔ detSimple ∈ dfSingle ∧
      ((detSimple.beginTime < 3 ∧ 0 < detSimple.endTime) ∧
       ¬ (detSimple.beginTime < 0 ∧ 3 < detSimple.endTime))) :=
  ⟨by decide, c3_window_selection dfSingle 0 3 detSimple (by decide)⟩

/-- C6 counterexample: a detection referencing node 99, absent from the
graph, does not make `count_birds` fail with an "unknown node" condition —
the call returns normally, silently ignoring the unknown node. -/
theorem c6_counterexample :
    count_birds dfUnknown graphTwoNodes 3 50 = some [(7, 1)] ∧
    99 ∈ dfUnknown.map (fun d => d.node) ∧ 99 ∉ graphTwoNodes.nodes := by
  refine ⟨by decide, by decide, by decide⟩

/-- C6 (amended): `count_birds` never fails on account of detections that
reference nodes absent from the graph.  Its only failure condition is a
graph containing a 3-clique (the `TypeError` raised through `alter_udg`),
independent of the detections; the induced-subgraph construction silently
keeps exactly the referenced nodes that are present in the graph and drops
the rest. -/
theorem c6_unknown_nodes_ignored (df : List Det) (g : Graph ℚ) (td : ℤ)
    (hr : ℚ) (ns : List ℕ) (x : ℕ) (htd : 0 < td) :
    (count_birds df g td hr = none ↔ trianglesList g ≠ []) ∧
    (x ∈ (subgraphOf g ns).nodes ↔ x ∈ g.nodes ∧ x ∈ ns) := by
  refine ⟨count_birds_none_iff df g td hr, ?_⟩
  unfold subgraphOf
  simp [List.mem_filter]

/-- Witness for C6 (amended): the unknown node 99 is dropped from the
induced subgraph and the run completes. -/
theorem c6_witness :
    (0 : ℤ) < 3 ∧
    ((count_birds dfUnknown graphTwoNodes 3 50 = none ↔
        trianglesList graphTwoNodes ≠ []) ∧
     (99 ∈ (subgraphOf graphTwoNodes [0, 99]).nodes ↔
        99 ∈ graphTwoNodes.nodes ∧ 99 ∈ [0, 99])) :=
  ⟨by decide,
    c6_unknown_nodes_ignored dfUnknown graphTwoNodes 3 50 [0, 99] 99 (by decide)⟩

/-! ## Claims about the geometry kernel and the corrector -/

/-- C1 (code bug): on every graph that contains a 3-clique — in particular
one with non-collinear positions — `get_smallest_enclosing_circles` returns
nothing at all: the loop raises `TypeError` on its first 3-clique (the call
`get_circumcircle((pos[u], pos[v], pos[w]))` passes one tuple where three
positional points are required), instead of returning the circumcircle or
the longest-edge circle the claim describes. -/
theorem c1_smallest_circles_raise (g : Graph ℚ) (h : trianglesList g ≠ []) :
    get_smallest_enclosing_circles g = none := by
  unfold get_smallest_enclosing_circles
  cases ht : trianglesList g with
  | nil => exact absurd ht h
  | cons a l => rfl

/-- Witness for C1: the complete graph on the 3-4-5 right triangle has a
3-clique, its positions are not collinear (the circumcircle denominator is
nonzero), and the smallest-enclosing-circle computation returns nothing. -/
theorem c1_witness :
    trianglesList graphTriangle ≠ [] ∧
    circumDenom (0, 0) (3, 0) (0, 4) ≠ 0 ∧
    get_smallest_enclosing_circles graphTriangle = none :=
  ⟨by decide, by norm_num [circumDenom],
    c1_smallest_circles_raise graphTriangle (by decide)⟩

/-- C4 (code bug): `alter_udg` cannot correct any graph that actually
contains a 3-clique — it raises the `TypeError` of
`get_smallest_enclosing_circles` and returns nothing, for every hearing
radius; no longest edge is ever removed.  (On the graphs on which it does
return, it returns them unchanged, and they contain no 3-clique at all.) -/
theorem c4_alter_udg_raises (g : Graph ℚ) (r : ℚ) (h : trianglesList g ≠ []) :
    alter_udg g r = none :=
  alter_udg_tri g r h

/-- Witness for C4: the 3-4-5 triangle (smallest enclosing circle of radius
5/2, centred on the hypotenuse midpoint) with hearing radius 1 is
geometrically inconsistent, so the corrector should remove the longest edge;
instead `alter_udg` fails. -/
theorem c4_witness :
    trianglesList graphTriangle ≠ [] ∧ alter_udg graphTriangle 1 = none :=
  ⟨by decide, c4_alter_udg_raises graphTriangle 1 (by decide)⟩

/-- C5 counterexample: for the collinear triple (0,0), (2,0), (4,0) the
claimed fallback circle (midpoint of the longest edge (0,0)-(4,0), radius
half its length) is NOT returned: `get_circumcircle` fails with a division
by zero (modelled `none`) because the zero denominator is never tested. -/
theorem c5_counterexample :
    get_circumcircle ((0 : ℝ), 0) (2, 0) (4, 0) = none ∧
    get_circumcircle ((0 : ℝ), 0) (2, 0) (4, 0) ≠ some ((2, 0), 2) := by
  have hc : circumDenom ((0 : ℝ), 0) (2, 0) (4, 0) = 0 := by
    norm_num [circumDenom]
  have h : get_circumcircle ((0 : ℝ), 0) (2, 0) (4, 0) = none := by
    simp only [get_circumcircle]
    rw [if_pos hc]
  exact ⟨h, by rw [h]; simp⟩

/-- C5 (amended): `get_circumcircle` fails (with a propagated
division-by-zero, modelled `none`) exactly on the collinear triples — the
denominator `d` vanishes if and only if the cross product of the two edge
vectors does; no detection, fallback, or silent NaN/infinity result
exists in the code. -/
theorem c5_collinear_division_fails (p1 p2 p3 : ℝ × ℝ) :
    get_circumcircle p1 p2 p3 = none ↔
      (p2.1 - p1.1) * (p3.2 - p1.2) - (p3.1 - p1.1) * (p2.2 - p1.2) = 0 := by
  have hd : circumDenom p1 p2 p3 =
      2 * ((p2.1 - p1.1) * (p3.2 - p1.2) - (p3.1 - p1.1) * (p2.2 - p1.2)) := by
    unfold circumDenom
    ring
  constructor
  · intro h
    by_contra hcross
    have hc : circumDenom p1 p2 p3 ≠ 0 := by
      rw [hd]
      intro hcon
      apply hcross
      linarith
    simp only [get_circumcircle] at h
    rw [if_neg hc] at h
    cases h
  · intro hcross
    have hc : circumDenom p1 p2 p3 = 0 := by
      rw [hd, hcross]
      ring
    simp [get_circumcircle, hc]

/-! ## C8: the unit-disk-graph builder -/

/-- Two ordered pairs denote the same undirected edge. -/
def samePair (a b : ℕ × ℕ) : Prop :=
  (a.1 = b.1 ∧ a.2 = b.2) ∨ (a.1 = b.2 ∧ a.2 = b.1)

theorem mem_combinations2 :
    ∀ (l : List ℕ) (p : ℕ × ℕ), p ∈ combinations2 l → p.1 ∈ l ∧ p.2 ∈ l
  | [], p, hp => absurd hp (List.not_mem_nil p)
  | x :: xs, p, hp => by
    rw [combinations2, List.mem_append] at hp
    rcases hp with hp | hp
    · rw [List.mem_map] at hp
      obtain ⟨y, hy, heq⟩ := hp
      rw [← heq]
      exact ⟨List.mem_cons_self x xs, List.mem_cons_of_mem x hy⟩
    · have hm := mem_combinations2 xs p hp
      exact ⟨List.mem_cons_of_mem x hm.1, List.mem_cons_of_mem x hm.2⟩

theorem combinations2_fst_ne_snd :
    ∀ (l : List ℕ), l.Nodup → ∀ p ∈ combinations2 l, p.1 ≠ p.2
  | [], _, p, hp => absurd hp (List.not_mem_nil p)
  | x :: xs, hnd, p, hp => by
    rw [List.nodup_cons] at hnd
    rw [combinations2, List.mem_append] at hp
    rcases hp with hp | hp
    · rw [List.mem_map] at hp
      obtain ⟨y, hy, heq⟩ := hp
      rw [← heq]
      show x ≠ y
      intro hcon
      exact hnd.1 (hcon ▸ hy)
    · exact combinations2_fst_ne_snd xs hnd.2 p hp

theorem combinations2_complete :
    ∀ (l : List ℕ) (u v : ℕ), u ∈ l → v ∈ l → u ≠ v →
      (u, v) ∈ combinations2 l ∨ (v, u) ∈ combinations2 l
  | [], u, _, hu, _, _ => absurd hu (List.not_mem_nil u)
  | x :: xs, u, v, hu, hv, hne => by
    rw [combinations2]
    by_cases hux : u = x
    · subst hux
      have hvxs : v ∈ xs := by
        rcases List.mem_cons.mp hv with hcon | hm
        · exact absurd hcon.symm hne
        · exact hm
      exact Or.inl (List.mem_append_left _ (List.mem_map.mpr ⟨v, hvxs, rfl⟩))
    · by_cases hvx : v = x
      · subst hvx
        have huxs : u ∈ xs := by
          rcases List.mem_cons.mp hu with hcon | hm
          · exact absurd hcon hux
          · exact hm
        exact Or.inr (List.mem_append_left _ (List.mem_map.mpr ⟨u, huxs, rfl⟩))
      · have huxs : u ∈ xs := by
          rcases List.mem_cons.mp hu with hcon | hm
          · exact absurd hcon hux
          · exact hm
        have hvxs : v ∈ xs := by
          rcases List.mem_cons.mp hv with hcon | hm
          · exact absurd hcon hvx
          · exact hm
        rcases combinations2_complete xs u v huxs hvxs hne with hc | hc
        · exact Or.inl (List.mem_append_right _ hc)
        · exact Or.inr (List.mem_append_right _ hc)

theorem combinations2_pairwise :
    ∀ (l : List ℕ), l.Nodup →
      List.Pairwise (fun p q => ¬ samePair p q) (combinations2 l)
  | [], _ => List.Pairwise.nil
  | x :: xs, hnd => by
    rw [List.nodup_cons] at hnd
    rw [combinations2, List.pairwise_append]
    refine ⟨?_, combinations2_pairwise xs hnd.2, ?_⟩
    · rw [List.pairwise_map]
      refine List.Pairwise.imp_of_mem ?_ hnd.2
      intro a b ha hb hab hsp
      simp only [samePair] at hsp
      rcases hsp with ⟨_, h2⟩ | ⟨h1, _⟩
      · exact hab h2
      · exact hnd.1 (h1 ▸ hb)
    · intro a ha b hb
      rw [List.mem_map] at ha
      obtain ⟨y, hy, heq⟩ := ha
      have hmem := mem_combinations2 xs b hb
      intro hsp
      rw [← heq] at hsp
      simp only [samePair] at hsp
      rcases hsp with ⟨h1, _⟩ | ⟨h1, _⟩
      · exact hnd.1 (h1 ▸ hmem.1)
      · exact hnd.1 (h1 ▸ hmem.2)

theorem buildFold_edges (h : ℝ) (pf : ℕ → ℝ × ℝ) :
    ∀ (ps : List (ℕ × ℕ)) (acc : Graph ℝ),
      (∀ u, posOf acc u = pf u) →
      (∀ p ∈ ps, ∀ e ∈ acc.edges, ¬ samePair (e.1, e.2.1) p) →
      List.Pairwise (fun p q => ¬ samePair p q) ps →
      (ps.foldl (buildStep h) acc).edges =
        acc.edges ++ ps.filterMap (fun p =>
          if euclDist (pf p.1) (pf p.2) ≤ h * 2 then
            some (p.1, p.2, euclDist (pf p.1) (pf p.2))
          else none)
  | [], acc, _, _, _ => by simp
  | p :: ps, acc, hpos, hnot, hpw => by
    rw [List.foldl_cons, List.filterMap_cons]
    have hpw' := List.pairwise_cons.mp hpw
    by_cases hd : euclDist (pf p.1) (pf p.2) ≤ h * 2
    · have hany : acc.edges.any (fun e =>
          (e.1 == p.1 && e.2.1 == p.2) || (e.1 == p.2 && e.2.1 == p.1)) = false := by
        by_contra hcon
        rw [Bool.not_eq_false, List.any_eq_true] at hcon
        obtain ⟨e, he, hsp⟩ := hcon
        simp only [Bool.or_eq_true, Bool.and_eq_true, beq_iff_eq] at hsp
        exact hnot p (List.mem_cons_self p ps) e he hsp
      have hstep : buildStep h acc p =
          { acc with edges :=
              acc.edges ++ [(p.1, p.2, euclDist (pf p.1) (pf p.2))] } := by
        unfold buildStep addEdge
        rw [hpos p.1, hpos p.2, if_pos hd, if_neg (by rw [hany]; exact Bool.false_ne_true)]
      rw [hstep, if_pos hd]
      have hrec := buildFold_edges h pf ps
        { acc with edges := acc.edges ++ [(p.1, p.2, euclDist (pf p.1) (pf p.2))] }
        (fun u => hpos u)
        (by
          intro q hq e he
          rcases List.mem_append.mp he with he | he
          · exact hnot q (List.mem_cons_of_mem p hq) e he
          · rcases List.mem_cons.mp he with rfl | hcon
            · exact hpw'.1 q hq
            · exact absurd hcon (List.not_mem_nil e))
        hpw'.2
      rw [hrec]
      simp
    · have hstep : buildStep h acc p = acc := by
        unfold buildStep
        rw [hpos p.1, hpos p.2, if_neg hd]
      rw [hstep, if_neg hd]
      exact buildFold_edges h pf ps acc hpos
        (fun q hq => hnot q (List.mem_cons_of_mem p hq)) hpw'.2

theorem mem_buildUdg_edges (g : Graph ℝ) (h : ℝ) (hE : g.edges = [])
    (hN : g.nodes.Nodup) (e : ℕ × ℕ × ℝ) :
    e ∈ (build_udg g h).edges ↔
      ((e.1, e.2.1) ∈ combinations2 g.nodes ∧
       euclDist (posOf g e.1) (posOf g e.2.1) ≤ h * 2 ∧
       e.2.2 = euclDist (posOf g e.1) (posOf g e.2.1)) := by
  unfold build_udg
  rw [buildFold_edges h (fun u => posOf g u) (combinations2 g.nodes) g
      (fun _ => rfl)
      (by
        intro p _ e2 he2
        rw [hE] at he2
        exact absurd he2 (List.not_mem_nil e2))
      (combinations2_pairwise g.nodes hN),
    hE, List.nil_append, List.mem_filterMap]
  constructor
  · rintro ⟨p, hp, hfp⟩
    by_cases hd : euclDist (posOf g p.1) (posOf g p.2) ≤ h * 2
    · rw [if_pos hd] at hfp
      rw [← Option.some.inj hfp]
      exact ⟨hp, hd, rfl⟩
    · rw [if_neg hd] at hfp
      cases hfp
  · rintro ⟨hmem, hd, hw⟩
    refine ⟨(e.1, e.2.1), hmem, ?_⟩
    rw [if_pos hd]
    obtain ⟨a, b, w⟩ := e
    simp only at hw
    rw [hw]

theorem adj_iff_mem {α : Type} (g : Graph α) (u v : ℕ) :
    adj g u v = true ↔
      ∃ e ∈ g.edges, (e.1 = u ∧ e.2.1 = v) ∨ (e.1 = v ∧ e.2.1 = u) := by
  simp [adj, List.any_eq_true]

theorem euclDist_symm (p q : ℝ × ℝ) : euclDist p q = euclDist q p := by
  unfold euclDist
  congr 1
  ring

/-- C8: for every pair of distinct nodes of a (initially edge-free) graph,
`build_udg` creates an edge between them if and only if their Euclidean
distance is at most `hearing_radius * 2` (the boundary case included); every
created edge stores exactly the Euclidean distance of its endpoints as its
weight and joins two distinct nodes; and no node is adjacent to itself. -/
theorem c8_build_udg (g : Graph ℝ) (h : ℝ) (u v : ℕ) (e : ℕ × ℕ × ℝ)
    (hE : g.edges = []) (hN : g.nodes.Nodup) (hu : u ∈ g.nodes)
    (hv : v ∈ g.nodes) (huv : u ≠ v) :
    (adj (build_udg g h) u v = true ↔
      euclDist (posOf g u) (posOf g v) ≤ h * 2) ∧
    (e ∈ (build_udg g h).edges →
      e.2.2 = euclDist (posOf g e.1) (posOf g e.2.1) ∧ e.1 ≠ e.2.1) ∧
    adj (build_udg g h) u u = false := by
  refine ⟨?_, ?_, ?_⟩
  · rw [adj_iff_mem]
    constructor
    · rintro ⟨e2, he2, hor⟩
      rw [mem_buildUdg_edges g h hE hN e2] at he2
      obtain ⟨_, hd, _⟩ := he2
      rcases hor with ⟨h1, h2⟩ | ⟨h1, h2⟩
      · rw [← h1, ← h2]
        exact hd
      · rw [euclDist_symm, ← h1, ← h2]
        exact hd
    · intro hd
      rcases combinations2_complete g.nodes u v hu hv huv with hc | hc
      · refine ⟨(u, v, euclDist (posOf g u) (posOf g v)), ?_, Or.inl ⟨rfl, rfl⟩⟩
        rw [mem_buildUdg_edges g h hE hN]
        exact ⟨hc, hd, rfl⟩
      · refine ⟨(v, u, euclDist (posOf g v) (posOf g u)), ?_, Or.inr ⟨rfl, rfl⟩⟩
        rw [mem_buildUdg_edges g h hE hN]
        rw [euclDist_symm] at hd
        exact ⟨hc, hd, rfl⟩
  · intro he
    rw [mem_buildUdg_edges g h hE hN e] at he
    obtain ⟨hc2, _, hw⟩ := he
    exact ⟨hw, combinations2_fst_ne_snd g.nodes hN (e.1, e.2.1) hc2⟩
  · rw [Bool.eq_false_iff]
    intro hadj
    rw [adj_iff_mem] at hadj
    obtain ⟨e2, he2, hor⟩ := hadj
    rw [mem_buildUdg_edges g h hE hN e2] at he2
    have hne := combinations2_fst_ne_snd g.nodes hN (e2.1, e2.2.1) he2.1
    rcases hor with ⟨h1, h2⟩ | ⟨h1, h2⟩ <;> exact hne (by rw [h1, h2])

/-- Witness for C8 at the boundary: nodes at `(0,0)` and `(3,4)` are at
distance exactly `5 = (5/2) * 2`, and the tie is included — the edge
exists. -/
theorem c8_witness :
    graphForUdg.nodes.Nodup ∧
    adj (build_udg graphForUdg (5 / 2)) 0 1 = true :=
  ⟨by decide,
    (c8_build_udg graphForUdg (5 / 2) 0 1 (0, 1, 5) rfl (by decide) (by decide)
        (by decide) (by decide)).1.mpr
      (by
        show euclDist ((0 : ℝ), 0) (3, 4) ≤ 5 / 2 * 2
        unfold euclDist
        norm_num
        rw [show (25 : ℝ) = 5 ^ 2 by norm_num,
          Real.sqrt_sq (by norm_num : (0 : ℝ) ≤ 5)])⟩

/-! ## C10: the caller's graph object is never mutated -/

theorem getRef_append {α : Type} (st l : GraphStore α) (r : ℕ)
    (h : r < st.length) : getRef (st ++ l) r = getRef st r := by
  unfold getRef
  rw [List.getD_eq_getElem?_getD, List.getD_eq_getElem?_getD,
    List.getElem?_append_left h]

theorem getRef_set_ne {α : Type} (st : GraphStore α) (r r' : ℕ) (g : Graph α)
    (h : r' ≠ r) : getRef (setRef st r g) r' = getRef st r' := by
  unfold getRef setRef
  rw [List.getD_eq_getElem?_getD, List.getD_eq_getElem?_getD,
    List.getElem?_set_ne (Ne.symm h)]

theorem length_setRef {α : Type} (st : GraphStore α) (r : ℕ) (g : Graph α) :
    (setRef st r g).length = st.length :=
  List.length_set st r g

theorem cliqueLoopAt_frame {α : Type} :
    ∀ (fuel : ℕ) (st : GraphStore α) (r r' : ℕ), r' ≠ r →
      getRef (cliqueLoopAt fuel st r).2 r' = getRef st r' ∧
      st.length ≤ (cliqueLoopAt fuel st r).2.length
  | 0, _, _, _, _ => ⟨rfl, le_rfl⟩
  | fuel + 1, st, r, r', h => by
    unfold cliqueLoopAt
    by_cases he : (getRef st r).nodes.isEmpty = true
    · rw [if_pos he]
      exact ⟨rfl, le_rfl⟩
    · rw [if_neg he]
      have hrec := cliqueLoopAt_frame fuel
        (setRef st r (removeNodes (getRef st r) (maxClique (getRef st r)))) r r' h
      refine ⟨?_, ?_⟩
      · rw [hrec.1, getRef_set_ne st r r' _ h]
      · rw [← length_setRef st r (removeNodes (getRef st r) (maxClique (getRef st r)))]
        exact hrec.2

theorem alterUdgAt_frame {α : Type} [LinearOrderedField α] (st : GraphStore α)
    (r : ℕ) (hr : α) (st2 : GraphStore α) (r' : ℕ) (hne : r' ≠ r)
    (h : alterUdgAt st r hr = some st2) :
    getRef st2 r' = getRef st r' ∧ st2.length = st.length := by
  unfold alterUdgAt at h
  cases ha : alter_udg (getRef st r) hr with
  | none =>
    rw [ha] at h
    cases h
  | some g2 =>
    rw [ha] at h
    have hst2 : st2 = setRef st r g2 := (Option.some.inj h).symm
    subst hst2
    exact ⟨getRef_set_ne st r r' g2 hne, length_setRef st r g2⟩

theorem speciesStepAt_frame {α : Type} [LinearOrderedField α] (gRef : ℕ)
    (altering : Bool) (hr : α) (pairs : List (ℕ × ℕ)) (cs : List (ℕ × ℕ))
    (st : GraphStore α) (sp : ℕ) (out : List (ℕ × ℕ) × GraphStore α) (n : ℕ)
    (hg : gRef < n) (hn : n ≤ st.length)
    (h : speciesStepAt gRef altering hr pairs (cs, st) sp = some out) :
    getRef out.2 gRef = getRef st gRef ∧ n ≤ out.2.length := by
  unfold speciesStepAt at h
  by_cases hb : 1 < (speciesNodes pairs sp).length
  · rw [if_pos hb] at h
    simp only [allocRef] at h
    set sub := subgraphOf (getRef st gRef) (speciesNodes pairs sp) with hsub
    have hne : gRef ≠ st.length := by omega
    cases haltst : (if altering then alterUdgAt (st ++ [sub]) st.length hr
        else some (st ++ [sub])) with
    | none =>
      rw [haltst] at h
      cases h
    | some st2 =>
      rw [haltst] at h
      have hst2 : getRef st2 gRef = getRef st gRef ∧ st.length + 1 ≤ st2.length := by
        cases altering with
        | false =>
          rw [if_neg Bool.false_ne_true] at haltst
          have he : st2 = st ++ [sub] := (Option.some.inj haltst).symm
          subst he
          refine ⟨getRef_append st [sub] gRef (by omega), by simp⟩
        | true =>
          rw [if_pos rfl] at haltst
          have hfr := alterUdgAt_frame (st ++ [sub]) st.length hr st2 gRef hne haltst
          refine ⟨?_, ?_⟩
          · rw [hfr.1, getRef_append st [sub] gRef (by omega)]
          · rw [hfr.2]
            simp
      have hloop := cliqueLoopAt_frame (getRef st2 st.length).nodes.length st2
        st.length gRef hne
      have hout : out.2 = (cliqueLoopAt (getRef st2 st.length).nodes.length st2
          st.length).2 := by
        rw [← Option.some.inj h]
      refine ⟨?_, ?_⟩
      · rw [hout, hloop.1, hst2.1]
      · rw [hout]
        omega
  · rw [if_neg hb] at h
    have he : out = (cs, st) := (Option.some.inj h).symm
    subst he
    exact ⟨rfl, hn⟩

theorem stepWindowAt_frame {α : Type} [LinearOrderedField α] (dfs : List Det)
    (gRef : ℕ) (altering : Bool) (hr : α) (td : ℤ) (G0 : Graph α) (n : ℕ)
    (hg : gRef < n) (state out : List (ℕ × ℕ) × GraphStore α) (wb : ℤ)
    (hP : getRef state.2 gRef = G0 ∧ n ≤ state.2.length)
    (h : stepWindowAt dfs gRef altering hr td state wb = some out) :
    getRef out.2 gRef = G0 ∧ n ≤ out.2.length := by
  unfold stepWindowAt at h
  by_cases h1 : (windowSel dfs wb (wb + td)).length = 0
  · rw [if_pos h1] at h
    have he : out = state := (Option.some.inj h).symm
    subst he
    exact hP
  · rw [if_neg h1] at h
    by_cases h2 : (windowPairs (windowSel dfs wb (wb + td))).length = 1 ∨
        (windowSpecies (windowPairs (windowSel dfs wb (wb + td)))).length =
          (windowPairs (windowSel dfs wb (wb + td))).length
    · rw [if_pos h2] at h
      have he : out = state := (Option.some.inj h).symm
      subst he
      exact hP
    · rw [if_neg h2] at h
      refine foldOpt_preserve
        (fun stt : List (ℕ × ℕ) × GraphStore α =>
          getRef stt.2 gRef = G0 ∧ n ≤ stt.2.length)
        (speciesStepAt gRef altering hr (windowPairs (windowSel dfs wb (wb + td))))
        ?_ _ state out hP h
      intro s1 sp s2 hp1 hstep
      have hfr := speciesStepAt_frame gRef altering hr _ s1.1 s1.2 sp s2 n hg
        hp1.2 hstep
      exact ⟨by rw [hfr.1, hp1.1], hfr.2⟩

/-- C10: `count_birds` leaves the caller's graph object untouched.  In the
heap-passing embedding, for every heap and valid reference to the input
graph, a completing run returns a heap in which the referenced graph object
(nodes, edges and attributes) is exactly the one passed in: line 31 runs
`alter_udg` on a freshly allocated copy, and each per-species pass mutates
only a freshly allocated copy of the induced subgraph. -/
theorem c10_caller_graph_unchanged (df : List Det) (st : GraphStore ℚ)
    (gRef : ℕ) (td : ℤ) (hr : ℚ) (m : List (ℕ × ℕ)) (st' : GraphStore ℚ)
    (hg : gRef < st.length)
    (h : count_birds_heap df st gRef td hr = some (m, st')) :
    getRef st' gRef = getRef st gRef := by
  unfold count_birds_heap at h
  simp only [allocRef] at h
  cases ha : alterUdgAt (st ++ [getRef st gRef]) st.length (100 : ℚ) with
  | none =>
    rw [ha] at h
    cases h
  | some st2 =>
    rw [ha] at h
    have hst2 : getRef st2 gRef = getRef st gRef ∧ st2.length = st.length + 1 := by
      have hfr := alterUdgAt_frame (st ++ [getRef st gRef]) st.length (100 : ℚ)
        st2 gRef (by omega) ha
      refine ⟨?_, ?_⟩
      · rw [hfr.1, getRef_append st [getRef st gRef] gRef hg]
      · rw [hfr.2]
        simp
    cases hdf : sortByBegin df with
    | nil =>
      rw [hdf] at h
      have hpair := Option.some.inj h
      have hsnd : st2 = st' := congrArg Prod.snd hpair
      rw [← hsnd]
      exact hst2.1
    | cons d rest =>
      rw [hdf] at h
      have hres := foldOpt_preserve
        (fun stt : List (ℕ × ℕ) × GraphStore ℚ =>
          getRef stt.2 gRef = getRef st gRef ∧ st.length + 1 ≤ stt.2.length)
        _ ?_ _ _ _ ⟨hst2.1, hst2.2.ge⟩ h
      · exact hres.1
      · intro s1 i s2 hp1 hstep
        exact stepWindowAt_frame (d :: rest) gRef _ hr td (getRef st gRef)
          (st.length + 1) (by omega) s1 s2 _ hp1 hstep

/-- Witness for C10: running the heap-passing `count_birds` on a one-element
heap leaves slot 0 (the caller's graph) unchanged. -/
theorem c10_witness :
    (0 : ℕ) < ([graphOneNode] : GraphStore ℚ).length ∧
    getRef [graphOneNode, graphOneNode] 0 = getRef [graphOneNode] 0 :=
  ⟨by decide,
    c10_caller_graph_unchanged dfSingle [graphOneNode] 0 3 50 [(7, 1)]
      [graphOneNode, graphOneNode] (by decide) (by decide)⟩
